import Mathlib

/-!
Verification of the Focus Cycle Engine of the ocean-flow-pomodoro repository.

The definitions below are a shallow embedding of the TypeScript source:
the phase state machine and cycle recorder of
`src/components/PomodoroTimer.tsx`, the session synchroniser of
`useSessionSync` and the analytics aggregations of `src/lib/database.ts`.
Timestamps are modelled as epoch milliseconds (`Int`), JS numbers used as
counters as `Int`/`Nat`, and JS floating-point divisions as exact rational
arithmetic (`ℚ`).  Optional strings follow the source's JS-truthiness
conventions: an empty string counts as absent wherever the source tests
`x || fallback`.
-/

namespace OceanFlow

/-- Phase enumeration (`Phase` in `src/lib/database.ts`). -/
inductive Phase where
  | immersion
  | dive
  | breath
deriving DecidableEq

/-- Per-phase durations in minutes (`PomodoroSettings` in `src/lib/database.ts`). -/
structure PomodoroSettings where
  immersionMinutes : Nat
  diveMinutes : Nat
  breathMinutes : Nat
deriving DecidableEq

/-- The in-code fallback constant `defaultSettings` (`src/lib/database.ts` 277-281):
25 immersion / 25 dive / 5 breath minutes. -/
def defaultSettings : PomodoroSettings :=
  { immersionMinutes := 25, diveMinutes := 25, breathMinutes := 5 }

/-- Row of the `pomodoro_settings` table as read by `getSettingsAsync`. -/
structure SettingsRow where
  immersion_minutes : Nat
  dive_minutes : Nat
  breath_minutes : Nat
deriving DecidableEq

/-- The settings accessor `getSettingsAsync` (`src/lib/database.ts` 290-319): returns
`defaultSettings` when there is no authenticated user, when the query errors
(including a thrown exception) or when no settings row exists; otherwise it maps
the stored row fields. -/
def getSettings (userId : Option String) (queryResult : Except String (Option SettingsRow)) :
    PomodoroSettings :=
  match userId with
  | none => defaultSettings
  | some _ =>
    match queryResult with
    | .error _ => defaultSettings
    | .ok none => defaultSettings
    | .ok (some row) =>
      { immersionMinutes := row.immersion_minutes
        diveMinutes := row.dive_minutes
        breathMinutes := row.breath_minutes }

/-- JS truthiness normalisation `x || null` on an optional string: an absent or
empty string becomes `none`. -/
def orNone (s : Option String) : Option String :=
  match s with
  | some v => if v = "" then none else some v
  | none => none

/-- JS `x || fallback` on an optional string. -/
def orDefault (s : Option String) (d : String) : String :=
  match s with
  | some v => if v = "" then d else v
  | none => d

/-- A Spotify track as captured by `useSpotify` (`currentTrack`). -/
structure Track where
  name : String
  artist : String
  album : String
deriving DecidableEq

/-- Combined client-side state driving the `PomodoroTimer` component: the synced
session fields plus the component-local refs and tag inputs that feed `saveCycle`. -/
structure EngineState where
  current_phase : Phase
  time_left : Int
  total_time : Int
  is_running : Bool
  cycle_count : Nat
  started_at : Option Int
  is_overtime : Bool
  extra_time_seconds : Int
  startTimeRef : Option Int
  selectedTags : List String
  diveTags : List String
  breathTags : List String
  diveNotes : String
  currentTrack : Option Track
deriving DecidableEq

/-- A record handed to `saveCycleRecordAsync` by `saveCycle` (the cycle recorder). -/
structure SavedCycle where
  phase : Phase
  startTime : Int
  endTime : Int
  tag : Option String
  actions : Option String
  completed : Bool
  spotifyTrackName : Option String
  spotifyArtist : Option String
  spotifyAlbum : Option String
deriving DecidableEq

/-- JS `names.join(', ')`. -/
def joinTags (ts : List String) : String := String.intercalate ", " ts

/-- The cycle recorder `saveCycle` (`PomodoroTimer.tsx` 91-128): emits one record for
the current phase when `startTimeRef.current` is set, and nothing otherwise. -/
def saveCycle (s : EngineState) (now : Int) (completed : Bool) : List SavedCycle :=
  match s.startTimeRef with
  | none => []
  | some t0 =>
    let tagValue : Option String :=
      match s.current_phase with
      | .immersion => some (joinTags s.selectedTags)
      | .dive => some (joinTags s.diveTags)
      | .breath => some (joinTags s.breathTags)
    let actionsValue : Option String :=
      match s.current_phase with
      | .dive => some s.diveNotes
      | _ => none
    [{ phase := s.current_phase
       startTime := t0
       endTime := now
       tag := orNone tagValue
       actions := orNone actionsValue
       completed := completed
       spotifyTrackName := orNone (s.currentTrack.map Track.name)
       spotifyArtist := orNone (s.currentTrack.map Track.artist)
       spotifyAlbum := orNone (s.currentTrack.map Track.album) }]

/-- Phase duration in seconds (`getPhaseTime` in `PomodoroTimer.tsx`). -/
def getPhaseTime (st : PomodoroSettings) (p : Phase) : Int :=
  match p with
  | .immersion => (st.immersionMinutes : Int) * 60
  | .dive => (st.diveMinutes : Int) * 60
  | .breath => (st.breathMinutes : Int) * 60

/-- The transition `startPhase` (`PomodoroTimer.tsx` 130-146). -/
def startPhase (st : PomodoroSettings) (now : Int) (p : Phase) (s : EngineState) : EngineState :=
  let time := getPhaseTime st p
  { s with
    current_phase := p
    time_left := time
    total_time := time
    is_running := true
    started_at := some now
    is_overtime := false
    extra_time_seconds := 0
    cycle_count := if p = Phase.immersion then s.cycle_count + 1 else s.cycle_count
    startTimeRef := some now }

/-- The overtime entry `handlePhaseComplete` (`PomodoroTimer.tsx` 148-156).  Note that
`time_left` is not touched: it keeps whatever value it had when the countdown ran out. -/
def handlePhaseComplete (s : EngineState) : EngineState :=
  { s with is_overtime := true, is_running := true, extra_time_seconds := 0 }

/-- One firing of the countdown interval (`PomodoroTimer.tsx` 248-262).  The interval is
installed only while `is_running`; a tick on a non-running state is a no-op. -/
def tick (s : EngineState) : EngineState :=
  if s.is_running = false then s
  else if s.is_overtime = true then
    { s with extra_time_seconds := s.extra_time_seconds + 1 }
  else if s.time_left ≤ 1 then handlePhaseComplete s
  else { s with time_left := s.time_left - 1 }

/-- Iterated ticks. -/
def tickN : Nat → EngineState → EngineState
  | 0, s => s
  | n + 1, s => tickN n (tick s)

/-- The overtime resolution `handleOverfocusDecision` (`PomodoroTimer.tsx` 158-176).
The `includeExtraTime` flag is accepted but never read by the handler. -/
def handleOverfocusDecision (includeExtraTime : Bool) (now : Int) (s : EngineState) :
    EngineState × List SavedCycle :=
  ({ s with is_running := false, is_overtime := false }, saveCycle s now true)

/-- The skip transition `handleSkip` (`PomodoroTimer.tsx` 178-185). -/
def handleSkip (now : Int) (s : EngineState) : EngineState × List SavedCycle :=
  ({ s with is_running := false, is_overtime := false }, saveCycle s now false)

/-- The early-completion transition `handleCompleteCycle` (`PomodoroTimer.tsx` 187-199). -/
def handleCompleteCycle (now : Int) (s : EngineState) : EngineState × List SavedCycle :=
  ({ s with is_running := false, is_overtime := false }, saveCycle s now true)

/-- The play/pause toggle `handlePlayPause` (`PomodoroTimer.tsx` 201-209). -/
def handlePlayPause (now : Int) (s : EngineState) : EngineState :=
  { s with
    is_running := !s.is_running
    started_at := if s.is_running = false then some now else s.started_at
    startTimeRef :=
      if s.is_running = false ∧ s.startTimeRef = none then some now else s.startTimeRef }

/-- The manual duration adjustment `handleTimeChange` (`PomodoroTimer.tsx` 240-245). -/
def handleTimeChange (n : Int) (s : EngineState) : EngineState :=
  { s with time_left := n, total_time := n }

/-- The freshly-created session of `useSessionSync` (first use: default immersion
duration, not running, cycle count 0) together with pristine component-local state. -/
def initialState (st : PomodoroSettings) : EngineState :=
  { current_phase := .immersion
    time_left := (st.immersionMinutes : Int) * 60
    total_time := (st.immersionMinutes : Int) * 60
    is_running := false
    cycle_count := 0
    started_at := none
    is_overtime := false
    extra_time_seconds := 0
    startTimeRef := none
    selectedTags := []
    diveTags := []
    breathTags := []
    diveNotes := ""
    currentTrack := none }

/-- States of the engine reachable from a fresh session through the component's
handlers.  `handleTimeChange` carries the guards of `TimerDisplay` (editable only
while paused and not in overtime, positive total), and the overfocus decision is
only offered from an overtime state; `setUi` models the user editing the tag and
note inputs, which the handlers read but never guard on. -/
inductive Reachable (st : PomodoroSettings) : EngineState → Prop where
  | init : Reachable st (initialState st)
  | start (now : Int) (p : Phase) {s : EngineState} :
      Reachable st s → Reachable st (startPhase st now p s)
  | tick_ {s : EngineState} : Reachable st s → Reachable st (tick s)
  | playPause (now : Int) {s : EngineState} :
      Reachable st s → Reachable st (handlePlayPause now s)
  | skip (now : Int) {s : EngineState} :
      Reachable st s → Reachable st (handleSkip now s).1
  | complete (now : Int) {s : EngineState} :
      Reachable st s → Reachable st (handleCompleteCycle now s).1
  | overfocus (b : Bool) (now : Int) {s : EngineState} :
      Reachable st s → s.is_overtime = true →
      Reachable st (handleOverfocusDecision b now s).1
  | timeChange (n : Int) {s : EngineState} :
      Reachable st s → s.is_running = false → s.is_overtime = false → 0 < n →
      Reachable st (handleTimeChange n s)
  | setUi (sel dv br : List String) (notes : String) (track : Option Track)
      {s : EngineState} : Reachable st s →
      Reachable st { s with selectedTags := sel, diveTags := dv, breathTags := br,
                            diveNotes := notes, currentTrack := track }

/-- A reachable running state with one second left: fresh session, duration set to
one second while paused, then started. -/
def oneSecondState : EngineState :=
  handlePlayPause 0 (handleTimeChange 1 (initialState defaultSettings))

/-- A reachable overtime state: ticking `oneSecondState` once exhausts the countdown. -/
def overtimeState : EngineState := tick oneSecondState

/- ---------------------------------------------------------------------------
Session synchroniser (`useSessionSync`, `src/hooks/useSessionSync.tsx`).
--------------------------------------------------------------------------- -/

/-- An `active_sessions` row (`ActiveSession` in `useSessionSync`); `updated_at` in
epoch milliseconds. -/
structure ActiveSession where
  current_phase : Phase
  time_left : Int
  total_time : Int
  is_running : Bool
  cycle_count : Nat
  started_at : Option Int
  updated_at : Int
  extra_time_seconds : Int
  is_overtime : Bool
deriving DecidableEq

/-- A partial update object (`Partial<ActiveSession>`) passed to `updateSession`;
absent fields leave the session field unchanged. -/
structure SessionUpdate where
  current_phase : Option Phase := none
  time_left : Option Int := none
  total_time : Option Int := none
  is_running : Option Bool := none
  cycle_count : Option Nat := none
  started_at : Option (Option Int) := none
  extra_time_seconds : Option Int := none
  is_overtime : Option Bool := none
deriving DecidableEq

/-- JS object spread `{ ...prev, ...updates }`. -/
def applyUpdates (s : ActiveSession) (u : SessionUpdate) : ActiveSession :=
  { current_phase := u.current_phase.getD s.current_phase
    time_left := u.time_left.getD s.time_left
    total_time := u.total_time.getD s.total_time
    is_running := u.is_running.getD s.is_running
    cycle_count := u.cycle_count.getD s.cycle_count
    started_at := u.started_at.getD s.started_at
    updated_at := s.updated_at
    extra_time_seconds := u.extra_time_seconds.getD s.extra_time_seconds
    is_overtime := u.is_overtime.getD s.is_overtime }

/-- The local cache of one client: the session view plus `lastUpdateRef.current`,
the wall-clock time of the last locally-originated write. -/
structure SyncState where
  session : Option ActiveSession
  lastUpdate : Int
deriving DecidableEq

/-- The optimistic-local part of `updateSession` (`useSessionSync` 131-158): merge the
updates into the cached session, stamp `updated_at` with the current time, and record
that time in `lastUpdateRef`.  With no cached session the call is a no-op. -/
def updateSessionLocal (now : Int) (u : SessionUpdate) (st : SyncState) : SyncState :=
  match st.session with
  | none => st
  | some s => { session := some { applyUpdates s u with updated_at := now }, lastUpdate := now }

/-- A change event arriving from the realtime feed for this user. -/
inductive RemoteEvent where
  | upsert (row : ActiveSession)
  | delete
deriving DecidableEq

/-- The realtime subscription handler (`useSessionSync` 110-121): an INSERT/UPDATE
payload replaces the cached session only when its `updated_at` is more than the
500 ms buffer ahead of the last locally-originated write. -/
def handleRemoteEvent (st : SyncState) (e : RemoteEvent) : SyncState :=
  match e with
  | .upsert row =>
    if row.updated_at > st.lastUpdate + 500 then { st with session := some row } else st
  | .delete => { st with session := none }

/- ---------------------------------------------------------------------------
Analytics aggregator (`src/lib/database.ts`).
--------------------------------------------------------------------------- -/

/-- A cycle record as returned by `getCyclesAsync`: timestamps in epoch milliseconds,
empty-string columns already normalised to `none` by the `row.x || undefined` mapping. -/
structure CycleRec where
  phase : Phase
  startMs : Int
  endMs : Int
  tag : Option String
  actions : Option String
  completed : Bool
  rating : Option Nat
  spotifyTrackName : Option String
  spotifyArtist : Option String
  spotifyAlbum : Option String
deriving DecidableEq

/-- Record duration in whole minutes: `Math.round((endTime - startTime) / 60000)`.
For any JS number `x`, `Math.round x = ⌊x + 1/2⌋`, so this is a floor division. -/
def durationMinutes (c : CycleRec) : Int := (c.endMs - c.startMs + 30000).fdiv 60000

/-- JS truthiness of an optional string field. -/
def strTruthy (t : Option String) : Bool := decide (t.getD "" ≠ "")

/-- JS truthiness of the optional `rating` field. -/
def ratingTruthy (r : Option Nat) : Bool := decide (r.getD 0 ≠ 0)

/-- Lookup in an insertion-ordered association list (JS `Map.get`). -/
def mapGet {α : Type} (m : List (String × α)) (k : String) : Option α :=
  match m with
  | [] => none
  | (k', v) :: rest => if k' = k then some v else mapGet rest k

/-- JS `Map.set`: replace the value in place when the key is present, append otherwise. -/
def mapSet {α : Type} (m : List (String × α)) (k : String) (v : α) : List (String × α) :=
  match m with
  | [] => [(k, v)]
  | (k', v') :: rest => if k' = k then (k, v) :: rest else (k', v') :: mapSet rest k v

/-- Projection of the value stored at key `t`, with default `d` when absent. -/
def projGet {α β : Type} (f : α → β) (d : β) (m : List (String × α)) (t : String) : β :=
  ((mapGet m t).map f).getD d

/-- Stable insertion into a list sorted descending by `key` (the element goes before
the first entry whose key is not larger, as JS stable `sort` with comparator
`(a, b) => key b - key a` would place it). -/
def insertByDesc {α : Type} (key : α → Int) (x : α) : List α → List α
  | [] => [x]
  | y :: ys => if key x < key y then y :: insertByDesc key x ys else x :: y :: ys

/-- Stable sort descending by `key`. -/
def sortByDesc {α : Type} (key : α → Int) (l : List α) : List α :=
  l.foldr (insertByDesc key) []

/-- Aggregated statistics per tag (`TagStats` in `src/lib/database.ts`). -/
structure TagStats where
  tag : String
  cycleCount : Nat
  totalTimeMinutes : Int
  actions : List String
deriving DecidableEq

/-- First pass of `getTagStatsAsync`: register each tagged immersion record,
counting it into the cycle count of its tag. -/
def registerImmersion (m : List (String × TagStats)) (c : CycleRec) :
    List (String × TagStats) :=
  let tag := orDefault c.tag "Sem tag"
  match mapGet m tag with
  | none => mapSet m tag { tag := tag, cycleCount := 1, totalTimeMinutes := 0, actions := [] }
  | some ts => mapSet m tag { ts with cycleCount := ts.cycleCount + 1 }

/-- The dive records whose time is attributed (`phase === 'dive' && completed`). -/
def isCountedDive (c : CycleRec) : Bool := decide (c.phase = Phase.dive) && c.completed

/-- The backward scan of `getTagStatsAsync`: the tag of the nearest preceding
immersion record carrying a (truthy) tag, or the `'Sem tag'` sentinel. -/
def assocTag (cycles : List CycleRec) (i : Nat) : String :=
  match (cycles.take i).reverse.find?
      (fun c => decide (c.phase = Phase.immersion) && strTruthy c.tag) with
  | some c => orDefault c.tag "Sem tag"
  | none => "Sem tag"

/-- Minutes half of the dive pass of `getTagStatsAsync`: add the duration to the
associated bucket when present, otherwise create it with cycle count 1. -/
def bumpMinutes (m : List (String × TagStats)) (tag : String) (d : Int) :
    List (String × TagStats) :=
  match mapGet m tag with
  | some ts => mapSet m tag { ts with totalTimeMinutes := ts.totalTimeMinutes + d }
  | none => mapSet m tag { tag := tag, cycleCount := 1, totalTimeMinutes := d, actions := [] }

/-- Actions half of the dive pass: append the note when it is present (truthy) and the
bucket exists (`if (diveCycle.actions && tagMap.get(associatedTag))`). -/
def pushAction (m : List (String × TagStats)) (tag : String) (a? : Option String) :
    List (String × TagStats) :=
  match a?, mapGet m tag with
  | some a, some ts => mapSet m tag { ts with actions := ts.actions ++ [a] }
  | _, _ => m

/-- Second pass of `getTagStatsAsync` for one dive record: add its duration to the
associated tag (creating the bucket with cycle count 1 when absent), then append its
free-text actions when present. -/
def addDive (m : List (String × TagStats)) (tag : String) (c : CycleRec) :
    List (String × TagStats) :=
  pushAction (bumpMinutes m tag (durationMinutes c)) tag (orNone c.actions)

/-- One iteration of the dive loop at position `i` of the full log. -/
def diveStep (cycles : List CycleRec) (m : List (String × TagStats)) (i : Nat) :
    List (String × TagStats) :=
  match cycles.get? i with
  | some c => if isCountedDive c then addDive m (assocTag cycles i) c else m
  | none => m

/-- The tag map built by `getTagStatsAsync` before sorting. -/
def tagMapAfter (cycles : List CycleRec) : List (String × TagStats) :=
  (List.range cycles.length).foldl (diveStep cycles)
    ((cycles.filter (fun c => decide (c.phase = Phase.immersion) && strTruthy c.tag)).foldl
      registerImmersion [])

/-- `getTagStatsAsync` (`src/lib/database.ts` 444-505) applied to an already-fetched,
chronologically ordered log. -/
def getTagStats (cycles : List CycleRec) : List TagStats :=
  sortByDesc (fun ts => ts.totalTimeMinutes) ((tagMapAfter cycles).map Prod.snd)

/-- Minutes attributed by the dive at position `i` to tag `t` (zero when the record
is not a completed dive or is associated with another tag). -/
def diveMinutesContrib (cycles : List CycleRec) (t : String) (i : Nat) : Int :=
  match cycles.get? i with
  | some c => if isCountedDive c = true ∧ t = assocTag cycles i then durationMinutes c else 0
  | none => 0

/-- Total minutes attributed to tag `t` across the log. -/
def attributedMinutes (cycles : List CycleRec) (t : String) : Int :=
  ((List.range cycles.length).map (diveMinutesContrib cycles t)).sum

/-- Actions attributed by the dive at position `i` to tag `t`. -/
def diveActionsContrib (cycles : List CycleRec) (t : String) (i : Nat) : List String :=
  match cycles.get? i with
  | some c =>
    if isCountedDive c = true ∧ t = assocTag cycles i then (orNone c.actions).toList else []
  | none => []

/-- All actions attributed to tag `t` across the log, in log order. -/
def attributedActions (cycles : List CycleRec) (t : String) : List String :=
  ((List.range cycles.length).map (diveActionsContrib cycles t)).flatten

/-- Minutes currently recorded in the tag map for tag `t` (0 when absent). -/
def minutesIn (m : List (String × TagStats)) (t : String) : Int :=
  projGet TagStats.totalTimeMinutes 0 m t

/-- Actions currently recorded in the tag map for tag `t` (empty when absent). -/
def actionsIn (m : List (String × TagStats)) (t : String) : List String :=
  projGet TagStats.actions [] m t

/-- Well-formedness of a tag map: keys are distinct and every entry names its key. -/
def WfTagMap (m : List (String × TagStats)) : Prop :=
  (m.map Prod.fst).Nodup ∧ ∀ p ∈ m, (p.2).tag = p.1

/-- Per-artist running aggregate of `getMusicFocusStatsAsync`. -/
structure MusicAgg where
  cycleCount : Nat
  ratingSum : Nat
  ratingCount : Nat
  totalMinutes : Int
  tracks : List String
deriving DecidableEq

/-- Output row of `getMusicFocusStatsAsync` (`MusicFocusStats` in `src/lib/database.ts`);
the mapping to the output never sets `trackName`. -/
structure MusicFocusStats where
  artist : String
  trackName : Option String
  cycleCount : Nat
  averageRating : ℚ
  totalMinutes : Int
deriving DecidableEq

/-- The artist bucket a row falls into: its artist, or the `'Sem música'` bucket when no
track was captured (`row.spotify_artist || 'Sem música'`). -/
def artistKey (c : CycleRec) : String := orDefault c.spotifyArtist "Sem música"

/-- One row of the `getMusicFocusStatsAsync` loop: count the cycle, accumulate the
row's own `rating` when truthy, add the rounded duration, and collect the track name. -/
def musicStep (m : List (String × MusicAgg)) (c : CycleRec) : List (String × MusicAgg) :=
  let artist := artistKey c
  let base :=
    match mapGet m artist with
    | some st => st
    | none => { cycleCount := 0, ratingSum := 0, ratingCount := 0, totalMinutes := 0,
                tracks := [] }
  let st1 := { base with cycleCount := base.cycleCount + 1 }
  let st2 :=
    if ratingTruthy c.rating then
      { st1 with ratingSum := st1.ratingSum + c.rating.getD 0,
                 ratingCount := st1.ratingCount + 1 }
    else st1
  let st3 := { st2 with totalMinutes := st2.totalMinutes + durationMinutes c }
  let st4 :=
    match orNone c.spotifyTrackName with
    | some tn => if tn ∈ st3.tracks then st3 else { st3 with tracks := st3.tracks ++ [tn] }
    | none => st3
  mapSet m artist st4

/-- The rows `getMusicFocusStatsAsync` queries: completed dive records. -/
def musicRows (cycles : List CycleRec) : List CycleRec :=
  cycles.filter (fun c => decide (c.phase = Phase.dive) && c.completed)

/-- Mapping of one artist bucket to its output row (the `.map` of
`getMusicFocusStatsAsync`): `averageRating` divides the accumulated dive-row ratings
by their count, and is 0 when no dive row carried one; `trackName` is never set. -/
def mkMusicRow (kv : String × MusicAgg) : MusicFocusStats :=
  { artist := kv.1
    trackName := none
    cycleCount := kv.2.cycleCount
    averageRating :=
      if kv.2.ratingCount > 0 then (kv.2.ratingSum : ℚ) / (kv.2.ratingCount : ℚ) else 0
    totalMinutes := kv.2.totalMinutes }

/-- `getMusicFocusStatsAsync` (`src/lib/database.ts` 759-836) applied to an
already-fetched log: group the completed dive records by artist and map each bucket to
its output row, sorted descending by total minutes. -/
def getMusicFocusStats (cycles : List CycleRec) : List MusicFocusStats :=
  let m := (musicRows cycles).foldl musicStep []
  sortByDesc (fun s => s.totalMinutes) (m.map mkMusicRow)

/-- Number of completed dive rows falling into artist bucket `a`. -/
def artistCycleCount (cycles : List CycleRec) (a : String) : Nat :=
  ((musicRows cycles).filter (fun c => decide (artistKey c = a))).length

/-- Total rounded minutes of the completed dive rows in artist bucket `a`. -/
def artistMinutes (cycles : List CycleRec) (a : String) : Int :=
  (((musicRows cycles).filter (fun c => decide (artistKey c = a))).map durationMinutes).sum

/-- Sum of the truthy `rating` values carried by the dive rows themselves in bucket `a`. -/
def artistRatingSum (cycles : List CycleRec) (a : String) : Nat :=
  (((musicRows cycles).filter
      (fun c => decide (artistKey c = a) && ratingTruthy c.rating)).map
    (fun c => c.rating.getD 0)).sum

/-- Number of dive rows in bucket `a` carrying a truthy `rating` of their own. -/
def artistRatingCount (cycles : List CycleRec) (a : String) : Nat :=
  ((musicRows cycles).filter (fun c => decide (artistKey c = a) && ratingTruthy c.rating)).length

/-- Cycle count recorded in the artist map for bucket `a` (0 when absent). -/
def cycleCountIn (m : List (String × MusicAgg)) (a : String) : Nat :=
  projGet MusicAgg.cycleCount 0 m a

/-- Total minutes recorded in the artist map for bucket `a` (0 when absent). -/
def musicMinutesIn (m : List (String × MusicAgg)) (a : String) : Int :=
  projGet MusicAgg.totalMinutes 0 m a

/-- Rating sum recorded in the artist map for bucket `a` (0 when absent). -/
def ratingSumIn (m : List (String × MusicAgg)) (a : String) : Nat :=
  projGet MusicAgg.ratingSum 0 m a

/-- Rating count recorded in the artist map for bucket `a` (0 when absent). -/
def ratingCountIn (m : List (String × MusicAgg)) (a : String) : Nat :=
  projGet MusicAgg.ratingCount 0 m a

/-- Sum of the stored values of a counter map. -/
def valsSum (m : List (String × Nat)) : Nat := (m.map Prod.snd).sum

/-- Output row of `getBreathTagStatsAsync` (`BreathTagStats` in `src/lib/database.ts`). -/
structure BreathTagStats where
  tag : String
  count : Nat
  percentage : ℚ
deriving DecidableEq

/-- Splitting helper: accumulate characters until the separator, as JS
`String.prototype.split` with a single-character separator does. -/
def splitAux (sep : Char) : List Char → List Char → List (List Char)
  | [], acc => [acc.reverse]
  | c :: rest, acc =>
    if c = sep then acc.reverse :: splitAux sep rest []
    else splitAux sep rest (c :: acc)

/-- JS `s.split(sep)` for a one-character separator. -/
def splitOnChar (sep : Char) (s : String) : List String :=
  (splitAux sep s.data []).map List.asString

/-- White-space characters stripped by JS `String.prototype.trim`. -/
def isJsSpace (c : Char) : Bool :=
  c = ' ' ∨ c = '\t' ∨ c = '\n' ∨ c = '\r' ∨ c = '\x0b' ∨ c = '\x0c'

/-- JS `s.trim()`: drop leading and trailing white space. -/
def trimChars (s : String) : String :=
  (((s.data.dropWhile isJsSpace).reverse.dropWhile isJsSpace).reverse).asString

/-- The token list of one breath record:
`(cycle.tag || '').split(',').map(t => t.trim()).filter(Boolean)`. -/
def tokensOf (c : CycleRec) : List String :=
  ((splitOnChar ',' (c.tag.getD "")).map trimChars).filter (fun t => decide (t ≠ ""))

/-- The records `getBreathTagStatsAsync` scans: completed breath records with a truthy tag. -/
def breathFilter (c : CycleRec) : Bool :=
  decide (c.phase = Phase.breath) && c.completed && strTruthy c.tag

/-- One token occurrence: bump the token's count and the running total. -/
def countToken (mt : List (String × Nat) × Nat) (t : String) : List (String × Nat) × Nat :=
  (mapSet mt.1 t ((mapGet mt.1 t).getD 0 + 1), mt.2 + 1)

/-- The token-count map and total occurrence count built by `getBreathTagStatsAsync`. -/
def breathTagCounts (cycles : List CycleRec) : List (String × Nat) × Nat :=
  (cycles.filter breathFilter).foldl (fun mt c => (tokensOf c).foldl countToken mt) ([], 0)

/-- `getBreathTagStatsAsync` (`src/lib/database.ts` 912-940) applied to an
already-fetched log: token counts with percentage of the total occurrence count,
sorted descending by count. -/
def getBreathTagStats (cycles : List CycleRec) : List BreathTagStats :=
  let mt := breathTagCounts cycles
  sortByDesc (fun s => (s.count : Int))
    (mt.1.map (fun kv =>
      { tag := kv.1
        count := kv.2
        percentage := if mt.2 > 0 then ((kv.2 : ℚ) / (mt.2 : ℚ)) * 100 else 0 }))

/-- Total number of token occurrences across the completed tagged breath records:
a record with `n` comma-separated tags contributes `n` occurrences. -/
def totalTokenOccurrences (cycles : List CycleRec) : Nat :=
  (((cycles.filter breathFilter).map tokensOf).flatten).length

/- ---------------------------------------------------------------------------
Concrete inputs used by counterexamples and witnesses.
--------------------------------------------------------------------------- -/

/-- A cycle record with every optional field absent. -/
def blankRec : CycleRec :=
  { phase := .immersion, startMs := 0, endMs := 0, tag := none, actions := none,
    completed := true, rating := none, spotifyTrackName := none, spotifyArtist := none,
    spotifyAlbum := none }

/-- Example log of the tag-aggregation claim: Immersion tagged A (2 min), completed
Dive of 10 min carrying an action note, Immersion tagged B (1 min), completed Dive
of 5 min.  The immersion durations are deliberately unequal to the attributed time. -/
def exTagLog : List CycleRec :=
  [ { blankRec with phase := .immersion, startMs := 0, endMs := 120000, tag := some "A" },
    { blankRec with phase := .dive, startMs := 120000, endMs := 720000,
                    actions := some "wrote report" },
    { blankRec with phase := .immersion, startMs := 720000, endMs := 780000,
                    tag := some "B" },
    { blankRec with phase := .dive, startMs := 780000, endMs := 1080000 } ]

/-- A completed 25-minute dive with a captured track by artist X and no rating of its
own. -/
def exDiveRec : CycleRec :=
  { blankRec with phase := .dive, startMs := 0, endMs := 1500000,
                  spotifyTrackName := some "T", spotifyArtist := some "X",
                  spotifyAlbum := some "Al" }

/-- The completed breath record of the same cycle, carrying rating 5. -/
def exBreathRec : CycleRec :=
  { blankRec with phase := .breath, startMs := 1500000, endMs := 1800000,
                  rating := some 5 }

/-- The dive and the breath record of one cycle. -/
def exMusicLog : List CycleRec := [exDiveRec, exBreathRec]

/-- Sample session row used for the synchroniser witness. -/
def exSession : ActiveSession :=
  { current_phase := .immersion, time_left := 100, total_time := 1500, is_running := true,
    cycle_count := 2, started_at := some 0, updated_at := 1000, extra_time_seconds := 0,
    is_overtime := false }

/-- Two completed breath records tagged `"calm, tired"` and `"calm"`: three token
occurrences in total. -/
def exBreathLog : List CycleRec :=
  [ { blankRec with phase := .breath, startMs := 0, endMs := 300000,
                    tag := some "calm, tired" },
    { blankRec with phase := .breath, startMs := 300000, endMs := 600000,
                    tag := some "calm" } ]

-- THEOREMS

theorem tick_startTimeRef (s : EngineState) : (tick s).startTimeRef = s.startTimeRef := by
  by_cases h1 : s.is_running = false
  · simp [tick, h1]
  · by_cases h2 : s.is_overtime = true
    · simp [tick, h1, h2]
    · by_cases h3 : s.time_left ≤ 1
      · simp [tick, h1, h2, h3, handlePhaseComplete]
      · simp [tick, h1, h2, h3]

theorem tick_time_left_nonneg (s : EngineState) (h : 0 ≤ s.time_left) :
    0 ≤ (tick s).time_left := by
  by_cases h1 : s.is_running = false
  · simp [tick, h1, h]
  · by_cases h2 : s.is_overtime = true
    · simp [tick, h1, h2, h]
    · by_cases h3 : s.time_left ≤ 1
      · simp [tick, h1, h2, h3, handlePhaseComplete, h]
      · simp only [tick, if_neg h1, if_neg h2, if_neg h3]
        omega

theorem tick_overtime_step (s : EngineState) (h : s.is_overtime = true) :
    (tick s).is_overtime = true ∧ (tick s).is_running = s.is_running ∧
    (s.is_running = true → (tick s).extra_time_seconds = s.extra_time_seconds + 1) ∧
    (s.is_running = false → tick s = s) := by
  by_cases h1 : s.is_running = false
  · simp [tick, h1, h]
  · simp [tick, h1, h]

theorem tickN_time_left_nonneg (n : Nat) :
    ∀ s : EngineState, 0 ≤ s.time_left → 0 ≤ (tickN n s).time_left := by
  induction n with
  | zero => intro s h; exact h
  | succ n ih => intro s h; exact ih (tick s) (tick_time_left_nonneg s h)

theorem tickN_overtime (n : Nat) :
    ∀ s : EngineState, s.is_overtime = true →
      (tickN n s).is_overtime = true ∧
      s.extra_time_seconds ≤ (tickN n s).extra_time_seconds ∧
      (s.is_running = true →
        (tickN n s).extra_time_seconds = s.extra_time_seconds + n ∧
        (tickN n s).is_running = true) := by
  induction n with
  | zero =>
    intro s h
    exact ⟨h, le_refl _, fun hr => ⟨by simp [tickN], hr⟩⟩
  | succ n ih =>
    intro s h
    have hstep := tick_overtime_step s h
    have hrec := ih (tick s) hstep.1
    refine ⟨hrec.1, ?_, ?_⟩
    · have heq : tickN (n + 1) s = tickN n (tick s) := rfl
      by_cases hr : s.is_running = true
      · have h1 := hstep.2.2.1 hr
        have h2 := (ih (tick s) hstep.1).2.1
        rw [heq]
        omega
      · have hr0 : s.is_running = false := by
          cases hb : s.is_running
          · rfl
          · exact absurd hb hr
        rw [heq, hstep.2.2.2 hr0]
        exact (ih s h).2.1
    · intro hr
      have h1 := hstep.2.2.1 hr
      have h2 : (tick s).is_running = true := by rw [hstep.2.1]; exact hr
      have hrec2 := hrec.2.2 h2
      constructor
      · rw [show tickN (n + 1) s = tickN n (tick s) from rfl, hrec2.1, h1]
        omega
      · exact hrec2.2

theorem reachable_inv (st : PomodoroSettings) {s : EngineState} (h : Reachable st s) :
    0 ≤ s.time_left ∧
    ((s.is_running = true ∨ s.is_overtime = true) → s.startTimeRef.isSome = true) := by
  induction h with
  | init =>
    constructor
    · simp only [initialState]
      positivity
    · intro hc
      simp [initialState] at hc
  | start now p ih =>
    constructor
    · simp only [startPhase, getPhaseTime]
      cases p <;> positivity
    · intro _
      simp [startPhase]
  | tick_ h ih =>
    rename_i s0
    constructor
    · exact tick_time_left_nonneg _ ih.1
    · intro hc
      rw [tick_startTimeRef]
      apply ih.2
      by_cases h1 : s0.is_running = false
      · rw [show tick s0 = s0 by simp [tick, h1]] at hc
        exact hc
      · left
        cases hb : s0.is_running
        · exact absurd hb h1
        · rfl
  | playPause now h ih =>
    rename_i s0
    constructor
    · simpa [handlePlayPause] using ih.1
    · intro _
      simp only [handlePlayPause]
      by_cases hcond : s0.is_running = false ∧ s0.startTimeRef = none
      · simp [hcond]
      · simp only [if_neg hcond]
        rcases Decidable.not_and_iff_or_not.mp hcond with hr | ha
        · have : s0.is_running = true := by
            cases hb : s0.is_running
            · exact absurd hb hr
            · rfl
          exact ih.2 (Or.inl this)
        · cases hx : s0.startTimeRef
          · exact absurd hx ha
          · rfl
  | skip now h ih =>
    exact ⟨by simpa [handleSkip] using ih.1, by intro hc; simp [handleSkip] at hc⟩
  | complete now h ih =>
    exact ⟨by simpa [handleCompleteCycle] using ih.1, by
      intro hc; simp [handleCompleteCycle] at hc⟩
  | overfocus b now h hov ih =>
    exact ⟨by simpa [handleOverfocusDecision] using ih.1, by
      intro hc; simp [handleOverfocusDecision] at hc⟩
  | timeChange n h hr hov hn ih =>
    refine ⟨by simpa [handleTimeChange] using le_of_lt hn, ?_⟩
    intro hc
    simp only [handleTimeChange] at hc
    exact ih.2 hc
  | setUi sel dv br notes track h ih =>
    exact ⟨ih.1, ih.2⟩

theorem oneSecondState_reachable : Reachable defaultSettings oneSecondState :=
  Reachable.playPause 0
    (Reachable.timeChange 1 Reachable.init (by decide) (by decide) (by decide))

theorem overtimeState_reachable : Reachable defaultSettings overtimeState :=
  Reachable.tick_ oneSecondState_reachable

/-- C1 (amended): for every tick() while running: in overtime, extraTimeSeconds
increases by exactly 1; otherwise if timeLeftSeconds > 1 it decreases by exactly 1;
otherwise the session transitions to Overtime with timeLeftSeconds left unchanged at
its current value (1 in the normal countdown — not reset to 0), isRunning still true,
extraTimeSeconds reset to 0, and the next phase is not started (phase, cycle count and
total time are untouched). -/
theorem tick_transition_spec (s : EngineState) (hrun : s.is_running = true) :
    (s.is_overtime = true →
      tick s = { s with extra_time_seconds := s.extra_time_seconds + 1 }) ∧
    (s.is_overtime = false → 1 < s.time_left →
      tick s = { s with time_left := s.time_left - 1 }) ∧
    (s.is_overtime = false → s.time_left ≤ 1 →
      (tick s).is_overtime = true ∧ (tick s).is_running = true ∧
      (tick s).time_left = s.time_left ∧ (tick s).extra_time_seconds = 0 ∧
      (tick s).current_phase = s.current_phase ∧ (tick s).cycle_count = s.cycle_count ∧
      (tick s).total_time = s.total_time ∧ (tick s).started_at = s.started_at) := by
  have hrun' : ¬s.is_running = false := by simp [hrun]
  refine ⟨?_, ?_, ?_⟩
  · intro h1
    simp [tick, hrun', h1]
  · intro h1 h2
    have h3 : ¬s.time_left ≤ 1 := not_le.mpr h2
    simp [tick, hrun', h1, h3]
  · intro h1 h2
    simp [tick, hrun', h1, h2, handlePhaseComplete]

/-- Witness for C1 at the reachable one-second running state. -/
theorem tick_transition_spec_witness :
    (tick oneSecondState).is_overtime = true ∧
    (tick oneSecondState).is_running = true ∧
    (tick oneSecondState).time_left = oneSecondState.time_left ∧
    (tick oneSecondState).extra_time_seconds = 0 := by
  have h := (tick_transition_spec oneSecondState (by decide)).2.2 (by decide) (by decide)
  exact ⟨h.1, h.2.1, h.2.2.1, h.2.2.2.1⟩

/-- Counterexample for C1 as stated: at the reachable running state with one second
left, the overtime transition leaves timeLeftSeconds at 1, not 0. -/
theorem tick_transition_cex :
    oneSecondState.is_running = true ∧ oneSecondState.is_overtime = false ∧
    oneSecondState.time_left ≤ 1 ∧ (tick oneSecondState).is_overtime = true ∧
    (tick oneSecondState).time_left ≠ 0 := by decide

/-- C4: start(p) sets totalTimeSeconds to the configured duration of p, timeLeftSeconds
equal to it, isRunning true, isOvertime false, extraTimeSeconds 0, stamps startedAt, and
increments cycleCount exactly when p is immersion. -/
theorem startPhase_spec (st : PomodoroSettings) (now : Int) (p : Phase) (s : EngineState) :
    (startPhase st now p s).total_time = getPhaseTime st p ∧
    (startPhase st now p s).time_left = (startPhase st now p s).total_time ∧
    (startPhase st now p s).is_running = true ∧
    (startPhase st now p s).is_overtime = false ∧
    (startPhase st now p s).extra_time_seconds = 0 ∧
    (startPhase st now p s).started_at = some now ∧
    (startPhase st now p s).current_phase = p ∧
    (startPhase st now p s).cycle_count =
      (if p = Phase.immersion then s.cycle_count + 1 else s.cycle_count) := by
  simp [startPhase]

/-- C5: over any finite tick sequence from a reachable state, timeLeftSeconds never
becomes negative; once isOvertime is true it stays true, extraTimeSeconds is never
reset (it grows by exactly one per tick while running), so the Overtime transition is
not re-triggered. -/
theorem tick_sequence_invariants (st : PomodoroSettings) (s : EngineState)
    (h : Reachable st s) (n : Nat) :
    0 ≤ (tickN n s).time_left ∧
    (s.is_overtime = true →
      (tickN n s).is_overtime = true ∧
      s.extra_time_seconds ≤ (tickN n s).extra_time_seconds) ∧
    (s.is_overtime = true → s.is_running = true →
      (tickN n s).extra_time_seconds = s.extra_time_seconds + n) := by
  refine ⟨tickN_time_left_nonneg n s (reachable_inv st h).1, ?_, ?_⟩
  · intro ho
    exact ⟨(tickN_overtime n s ho).1, (tickN_overtime n s ho).2.1⟩
  · intro ho hr
    exact ((tickN_overtime n s ho).2.2 hr).1

/-- Witness for C5 at the reachable overtime state, three ticks deep. -/
theorem tick_sequence_invariants_witness :
    0 ≤ (tickN 3 overtimeState).time_left ∧
    (tickN 3 overtimeState).is_overtime = true ∧
    (tickN 3 overtimeState).extra_time_seconds = overtimeState.extra_time_seconds + 3 := by
  have h := tick_sequence_invariants defaultSettings overtimeState overtimeState_reachable 3
  exact ⟨h.1, (h.2.1 (by decide)).1, h.2.2 (by decide) (by decide)⟩

/-- C6: resolveOvertime, called from a reachable overtime state, leaves Overtime, stops
the timer, emits exactly one CycleRecord with completed = true for the phase being
resolved, and the keepExtraTime flag changes nothing: the whole result is identical for
both flag values. -/
theorem resolveOvertime_spec (st : PomodoroSettings) (s : EngineState) (b : Bool)
    (now : Int) (h : Reachable st s) (ho : s.is_overtime = true) :
    (handleOverfocusDecision b now s).1.is_running = false ∧
    (handleOverfocusDecision b now s).1.is_overtime = false ∧
    (∃ r, (handleOverfocusDecision b now s).2 = [r] ∧ r.completed = true ∧
      r.phase = s.current_phase) ∧
    handleOverfocusDecision true now s = handleOverfocusDecision false now s := by
  have hanchor := (reachable_inv st h).2 (Or.inr ho)
  obtain ⟨t0, ht0⟩ := Option.isSome_iff_exists.mp hanchor
  refine ⟨rfl, rfl, ?_, rfl⟩
  simp only [handleOverfocusDecision, saveCycle, ht0]
  exact ⟨_, rfl, rfl, rfl⟩

/-- Witness for C6 at the reachable overtime state. -/
theorem resolveOvertime_spec_witness :
    (handleOverfocusDecision true 5 overtimeState).1.is_running = false ∧
    (handleOverfocusDecision true 5 overtimeState).1.is_overtime = false ∧
    (∃ r, (handleOverfocusDecision true 5 overtimeState).2 = [r] ∧ r.completed = true ∧
      r.phase = overtimeState.current_phase) ∧
    handleOverfocusDecision true 5 overtimeState =
      handleOverfocusDecision false 5 overtimeState :=
  resolveOvertime_spec defaultSettings overtimeState true 5 overtimeState_reachable
    (by decide)

/-- C7 (amended): skip() from any state in which a phase run has begun (the start-time
anchor is set — in particular every reachable running or overtime state) stops the
timer, emits exactly one CycleRecord with completed = false for the current phase, and
never enters Overtime; from the pristine never-started state it emits no record. -/
theorem skip_spec (s : EngineState) (now : Int) (h : s.startTimeRef.isSome = true) :
    (∃ r, (handleSkip now s).2 = [r] ∧ r.completed = false ∧ r.phase = s.current_phase) ∧
    (handleSkip now s).1.is_overtime = false ∧
    (handleSkip now s).1.is_running = false := by
  obtain ⟨t0, ht0⟩ := Option.isSome_iff_exists.mp h
  refine ⟨?_, rfl, rfl⟩
  simp only [handleSkip, saveCycle, ht0]
  exact ⟨_, rfl, rfl, rfl⟩

/-- Witness for C7's amended statement at the reachable one-second running state. -/
theorem skip_spec_witness :
    (∃ r, (handleSkip 7 oneSecondState).2 = [r] ∧ r.completed = false ∧
      r.phase = oneSecondState.current_phase) ∧
    (handleSkip 7 oneSecondState).1.is_overtime = false ∧
    (handleSkip 7 oneSecondState).1.is_running = false :=
  skip_spec oneSecondState 7 (by decide)

/-- Counterexample for C7 as stated: skip() from the freshly-created session (where
`startTimeRef.current` is still null) emits no CycleRecord at all, not exactly one. -/
theorem skip_spec_cex :
    (handleSkip 0 (initialState defaultSettings)).2 = [] ∧
    (handleSkip 0 (initialState defaultSettings)).2.length ≠ 1 := by decide

/-- C8 (amended): whenever settings are missing or cannot be read — no authenticated
user, a read error, or no stored settings row — the accessor returns the fixed
in-code defaults of 25 immersion, 25 dive and 5 breath minutes. -/
theorem getSettings_fallback (userId : Option String)
    (q : Except String (Option SettingsRow))
    (h : userId = none ∨ q = Except.ok none ∨ ∃ e, q = Except.error e) :
    getSettings userId q = defaultSettings ∧
    defaultSettings =
      { immersionMinutes := 25, diveMinutes := 25, breathMinutes := 5 } := by
  refine ⟨?_, rfl⟩
  rcases h with h | h | ⟨e, h⟩
  · simp [getSettings, h]
  · cases userId <;> simp [getSettings, h]
  · cases userId <;> simp [getSettings, h]

/-- Witness for C8's amended statement: a missing settings row for a logged-in user. -/
theorem getSettings_fallback_witness :
    getSettings (some "u") (Except.ok none) = defaultSettings ∧
    defaultSettings =
      { immersionMinutes := 25, diveMinutes := 25, breathMinutes := 5 } :=
  getSettings_fallback (some "u") (Except.ok none) (Or.inr (Or.inl rfl))

/-- Counterexample for C8 as stated: the fallback is 25/25/5, not the claimed 25/5/5 —
the dive default is 25 minutes. -/
theorem getSettings_fallback_cex :
    getSettings (some "u") (Except.ok none) ≠
      { immersionMinutes := 25, diveMinutes := 5, breathMinutes := 5 } ∧
    (getSettings (some "u") (Except.ok none)).diveMinutes = 25 := by decide

/-- C3: a remote upsert is applied to the local cache only when its updatedAt is more
than the 500 ms buffer ahead of the last locally-originated write, and is applied
(replacing the whole session) when it is; consequently a local write followed by an
echoed notification whose updatedAt is at or within the buffer of that write leaves
the locally-updated cache untouched. -/
theorem remoteApply_echo_suppression :
    (∀ (st : SyncState) (r : ActiveSession), r.updated_at ≤ st.lastUpdate + 500 →
      handleRemoteEvent st (RemoteEvent.upsert r) = st) ∧
    (∀ (st : SyncState) (r : ActiveSession), r.updated_at > st.lastUpdate + 500 →
      (handleRemoteEvent st (RemoteEvent.upsert r)).session = some r) ∧
    (∀ (st : SyncState) (s : ActiveSession) (u : SessionUpdate) (now : Int)
        (r : ActiveSession), st.session = some s → r.updated_at ≤ now + 500 →
      handleRemoteEvent (updateSessionLocal now u st) (RemoteEvent.upsert r) =
        updateSessionLocal now u st) := by
  refine ⟨?_, ?_, ?_⟩
  · intro st r h
    simp [handleRemoteEvent, not_lt.mpr h]
  · intro st r h
    simp [handleRemoteEvent, h]
  · intro st s u now r hs h
    have hlu : (updateSessionLocal now u st).lastUpdate = now := by
      simp [updateSessionLocal, hs]
    simp [handleRemoteEvent, hlu, not_lt.mpr h]

/-- Witness for C3: a stale upsert (within the buffer) is ignored, a genuinely newer
one is applied, and the echo of a local write does not revert it. -/
theorem remoteApply_echo_suppression_witness :
    handleRemoteEvent ⟨some exSession, 900⟩
        (RemoteEvent.upsert { exSession with updated_at := 1200 }) =
      ⟨some exSession, 900⟩ ∧
    (handleRemoteEvent ⟨some exSession, 900⟩
        (RemoteEvent.upsert { exSession with updated_at := 1401 })).session =
      some { exSession with updated_at := 1401 } ∧
    handleRemoteEvent (updateSessionLocal 2000 { is_running := some false }
        ⟨some exSession, 900⟩)
        (RemoteEvent.upsert { exSession with updated_at := 2300 }) =
      updateSessionLocal 2000 { is_running := some false } ⟨some exSession, 900⟩ := by
  refine ⟨remoteApply_echo_suppression.1 _ _ (by decide),
    remoteApply_echo_suppression.2.1 _ _ (by decide),
    remoteApply_echo_suppression.2.2 _ exSession _ 2000 _ rfl (by decide)⟩

theorem mapGet_mapSet_self {α : Type} (m : List (String × α)) (k : String) (v : α) :
    mapGet (mapSet m k v) k = some v := by
  induction m with
  | nil => simp [mapGet, mapSet]
  | cons p rest ih =>
    by_cases h : p.1 = k
    · simp [mapGet, mapSet, h]
    · simp [mapGet, mapSet, h, ih]

theorem mapGet_mapSet_ne {α : Type} (m : List (String × α)) {k t : String} (v : α)
    (h : t ≠ k) : mapGet (mapSet m k v) t = mapGet m t := by
  have hkt : ¬k = t := fun hh => h hh.symm
  induction m with
  | nil => simp [mapGet, mapSet, hkt]
  | cons p rest ih =>
    by_cases h1 : p.1 = k
    · simp [mapGet, mapSet, h1, hkt]
    · simp [mapGet, mapSet, h1, ih]

theorem projGet_mapSet {α β : Type} (f : α → β) (d : β) (m : List (String × α))
    (k : String) (v : α) (t : String) :
    projGet f d (mapSet m k v) t = if t = k then f v else projGet f d m t := by
  by_cases h : t = k
  · subst h
    simp [projGet, mapGet_mapSet_self]
  · simp [projGet, mapGet_mapSet_ne m v h, h]

theorem mem_mapSet {α : Type} {m : List (String × α)} {k : String} {v : α}
    {p : String × α} (h : p ∈ mapSet m k v) : p = (k, v) ∨ p ∈ m := by
  induction m with
  | nil => simpa [mapSet] using h
  | cons q rest ih =>
    by_cases h1 : q.1 = k
    · simp only [mapSet, if_pos h1] at h
      rcases List.mem_cons.mp h with h2 | h2
      · exact Or.inl h2
      · exact Or.inr (List.mem_cons_of_mem q h2)
    · simp only [mapSet, if_neg h1] at h
      rcases List.mem_cons.mp h with h2 | h2
      · exact Or.inr (h2 ▸ List.mem_cons_self q rest)
      · rcases ih h2 with h3 | h3
        · exact Or.inl h3
        · exact Or.inr (List.mem_cons_of_mem q h3)

theorem mem_of_mapGet {α : Type} {m : List (String × α)} {k : String} {v : α}
    (h : mapGet m k = some v) : (k, v) ∈ m := by
  induction m with
  | nil => simp [mapGet] at h
  | cons q rest ih =>
    by_cases h1 : q.1 = k
    · simp only [mapGet, if_pos h1] at h
      injection h with h2
      exact List.mem_cons.mpr (Or.inl (by rw [← h1, ← h2]))
    · simp only [mapGet, if_neg h1] at h
      exact List.mem_cons_of_mem q (ih h)

theorem mapGet_eq_none_iff {α : Type} (m : List (String × α)) (k : String) :
    mapGet m k = none ↔ k ∉ m.map Prod.fst := by
  induction m with
  | nil => simp [mapGet]
  | cons q rest ih =>
    by_cases h1 : q.1 = k
    · simp [mapGet, h1]
    · have h2 : ¬k = q.1 := fun hh => h1 hh.symm
      simp [mapGet, h1, ih, h2]

theorem keys_mapSet_of_some {α : Type} {m : List (String × α)} {k : String} {v0 : α}
    (v : α) (h : mapGet m k = some v0) :
    (mapSet m k v).map Prod.fst = m.map Prod.fst := by
  induction m with
  | nil => simp [mapGet] at h
  | cons q rest ih =>
    by_cases h1 : q.1 = k
    · simp [mapSet, h1]
    · simp only [mapGet, if_neg h1] at h
      simp [mapSet, h1, ih h]

theorem keys_mapSet_of_none {α : Type} {m : List (String × α)} {k : String}
    (v : α) (h : mapGet m k = none) :
    (mapSet m k v).map Prod.fst = m.map Prod.fst ++ [k] := by
  induction m with
  | nil => simp [mapSet]
  | cons q rest ih =>
    by_cases h1 : q.1 = k
    · simp [mapGet, h1] at h
    · simp only [mapGet, if_neg h1] at h
      simp [mapSet, h1, ih h]

theorem nodup_keys_mapSet {α : Type} {m : List (String × α)} (k : String) (v : α)
    (h : (m.map Prod.fst).Nodup) : ((mapSet m k v).map Prod.fst).Nodup := by
  cases hg : mapGet m k with
  | some v0 => rw [keys_mapSet_of_some v hg]; exact h
  | none =>
    rw [keys_mapSet_of_none v hg]
    have hk : k ∉ m.map Prod.fst := (mapGet_eq_none_iff m k).mp hg
    refine h.append (List.nodup_singleton k) ?_
    intro a ha hb
    rw [List.mem_singleton] at hb
    exact hk (hb ▸ ha)

theorem mapGet_of_mem_nodup {α : Type} {m : List (String × α)} {k : String} {v : α}
    (hn : (m.map Prod.fst).Nodup) (h : (k, v) ∈ m) : mapGet m k = some v := by
  induction m with
  | nil => simp at h
  | cons q rest ih =>
    rcases List.mem_cons.mp h with h1 | h1
    · simp [mapGet, ← h1]
    · have hq : q.1 ≠ k := by
        intro hq
        have : k ∈ rest.map Prod.fst := List.mem_map.mpr ⟨(k, v), h1, rfl⟩
        rw [List.map_cons, List.nodup_cons, hq] at hn
        exact hn.1 this
      rw [List.map_cons, List.nodup_cons] at hn
      simp [mapGet, hq, ih hn.2 h1]

theorem isSome_mapGet_mapSet {α : Type} (m : List (String × α)) (k t : String) (v : α)
    (h : (mapGet m t).isSome = true) : (mapGet (mapSet m k v) t).isSome = true := by
  by_cases h1 : t = k
  · subst h1; simp [mapGet_mapSet_self]
  · rw [mapGet_mapSet_ne m v h1]; exact h

theorem perm_insertByDesc {α : Type} (key : α → Int) (x : α) (l : List α) :
    (insertByDesc key x l).Perm (x :: l) := by
  induction l with
  | nil => simp [insertByDesc]
  | cons y ys ih =>
    by_cases h : key x < key y
    · simp only [insertByDesc, if_pos h]
      exact (ih.cons y).trans (List.Perm.swap x y ys)
    · simp [insertByDesc, if_neg h]

theorem perm_sortByDesc {α : Type} (key : α → Int) (l : List α) :
    (sortByDesc key l).Perm l := by
  induction l with
  | nil => simp [sortByDesc]
  | cons y ys ih =>
    have : sortByDesc key (y :: ys) = insertByDesc key y (sortByDesc key ys) := rfl
    rw [this]
    exact (perm_insertByDesc key y (sortByDesc key ys)).trans (ih.cons y)

theorem mem_sortByDesc {α : Type} (key : α → Int) (l : List α) (a : α) :
    a ∈ sortByDesc key l ↔ a ∈ l :=
  (perm_sortByDesc key l).mem_iff

theorem pairwise_insertByDesc {α : Type} (key : α → Int) (x : α) {l : List α}
    (h : l.Pairwise (fun a b => key b ≤ key a)) :
    (insertByDesc key x l).Pairwise (fun a b => key b ≤ key a) := by
  induction l with
  | nil => simp [insertByDesc]
  | cons y ys ih =>
    rw [List.pairwise_cons] at h
    by_cases hc : key x < key y
    · simp only [insertByDesc, if_pos hc]
      rw [List.pairwise_cons]
      refine ⟨?_, ih h.2⟩
      intro b hb
      rcases List.mem_cons.mp ((perm_insertByDesc key x ys).mem_iff.mp hb) with h1 | h1
      · rw [h1]; exact le_of_lt hc
      · exact h.1 b h1
    · simp only [insertByDesc, if_neg hc]
      rw [List.pairwise_cons]
      refine ⟨?_, List.pairwise_cons.mpr h⟩
      intro b hb
      rcases List.mem_cons.mp hb with h1 | h1
      · rw [h1]; exact not_lt.mp hc
      · exact le_trans (h.1 b h1) (not_lt.mp hc)

theorem pairwise_sortByDesc {α : Type} (key : α → Int) (l : List α) :
    (sortByDesc key l).Pairwise (fun a b => key b ≤ key a) := by
  induction l with
  | nil => simp [sortByDesc]
  | cons y ys ih => exact pairwise_insertByDesc key y ih

theorem bumpMinutes_minutesIn (m : List (String × TagStats)) (tag : String) (d : Int)
    (t : String) :
    minutesIn (bumpMinutes m tag d) t = minutesIn m t + (if t = tag then d else 0) := by
  unfold bumpMinutes minutesIn
  cases hm : mapGet m tag with
  | some ts =>
    rw [projGet_mapSet]
    by_cases ht : t = tag
    · subst ht; simp [projGet, hm]
    · simp [ht]
  | none =>
    rw [projGet_mapSet]
    by_cases ht : t = tag
    · subst ht; simp [projGet, hm]
    · simp [ht]

theorem bumpMinutes_actionsIn (m : List (String × TagStats)) (tag : String) (d : Int)
    (t : String) : actionsIn (bumpMinutes m tag d) t = actionsIn m t := by
  unfold bumpMinutes actionsIn
  cases hm : mapGet m tag with
  | some ts =>
    rw [projGet_mapSet]
    by_cases ht : t = tag
    · subst ht; simp [projGet, hm]
    · simp [ht]
  | none =>
    rw [projGet_mapSet]
    by_cases ht : t = tag
    · subst ht; simp [projGet, hm]
    · simp [ht]

theorem bumpMinutes_get_isSome (m : List (String × TagStats)) (tag : String) (d : Int) :
    (mapGet (bumpMinutes m tag d) tag).isSome = true := by
  unfold bumpMinutes
  cases hm : mapGet m tag <;> simp [mapGet_mapSet_self]

theorem pushAction_minutesIn (m : List (String × TagStats)) (tag : String)
    (a? : Option String) (t : String) : minutesIn (pushAction m tag a?) t = minutesIn m t := by
  unfold pushAction
  cases a? with
  | none => cases hm : mapGet m tag <;> simp
  | some a =>
    cases hm : mapGet m tag with
    | none => simp
    | some ts =>
      simp only [minutesIn]
      rw [projGet_mapSet]
      by_cases ht : t = tag
      · subst ht; simp [projGet, hm]
      · simp [ht]

theorem pushAction_actionsIn (m : List (String × TagStats)) (tag : String)
    (a? : Option String) (t : String) (h : (mapGet m tag).isSome = true) :
    actionsIn (pushAction m tag a?) t =
      actionsIn m t ++ (if t = tag then a?.toList else []) := by
  unfold pushAction
  cases a? with
  | none => cases hm : mapGet m tag <;> simp
  | some a =>
    cases hm : mapGet m tag with
    | none => rw [hm] at h; simp at h
    | some ts =>
      simp only [actionsIn]
      rw [projGet_mapSet]
      by_cases ht : t = tag
      · subst ht; simp [projGet, hm]
      · simp [ht]

theorem addDive_minutesIn (m : List (String × TagStats)) (tag : String) (c : CycleRec)
    (t : String) :
    minutesIn (addDive m tag c) t = minutesIn m t + (if t = tag then durationMinutes c else 0) := by
  unfold addDive
  rw [pushAction_minutesIn, bumpMinutes_minutesIn]

theorem addDive_actionsIn (m : List (String × TagStats)) (tag : String) (c : CycleRec)
    (t : String) :
    actionsIn (addDive m tag c) t =
      actionsIn m t ++ (if t = tag then (orNone c.actions).toList else []) := by
  unfold addDive
  rw [pushAction_actionsIn _ _ _ _ (bumpMinutes_get_isSome m tag (durationMinutes c)),
    bumpMinutes_actionsIn]

theorem registerImmersion_minutesIn (m : List (String × TagStats)) (c : CycleRec)
    (h : ∀ t, minutesIn m t = 0) (t : String) : minutesIn (registerImmersion m c) t = 0 := by
  unfold registerImmersion
  cases hm : mapGet m (orDefault c.tag "Sem tag") with
  | none =>
    simp only [minutesIn, hm]
    rw [projGet_mapSet]
    by_cases ht : t = orDefault c.tag "Sem tag"
    · simp [ht]
    · simp [ht]; exact h t
  | some ts =>
    simp only [minutesIn, hm]
    rw [projGet_mapSet]
    by_cases ht : t = orDefault c.tag "Sem tag"
    · have h0 := h (orDefault c.tag "Sem tag")
      simp [minutesIn, projGet, hm] at h0
      simp [ht, h0]
    · simp [ht]; exact h t

theorem registerImmersion_actionsIn (m : List (String × TagStats)) (c : CycleRec)
    (h : ∀ t, actionsIn m t = []) (t : String) : actionsIn (registerImmersion m c) t = [] := by
  unfold registerImmersion
  cases hm : mapGet m (orDefault c.tag "Sem tag") with
  | none =>
    simp only [actionsIn, hm]
    rw [projGet_mapSet]
    by_cases ht : t = orDefault c.tag "Sem tag"
    · simp [ht]
    · simp [ht]; exact h t
  | some ts =>
    simp only [actionsIn, hm]
    rw [projGet_mapSet]
    by_cases ht : t = orDefault c.tag "Sem tag"
    · have h0 := h (orDefault c.tag "Sem tag")
      simp [actionsIn, projGet, hm] at h0
      simp [ht, h0]
    · simp [ht]; exact h t

theorem foldl_registerImmersion_minutesIn (l : List CycleRec) :
    ∀ m : List (String × TagStats), (∀ t, minutesIn m t = 0) →
      ∀ t, minutesIn (l.foldl registerImmersion m) t = 0 := by
  induction l with
  | nil => intro m h t; exact h t
  | cons c rest ih =>
    intro m h t
    exact ih (registerImmersion m c) (registerImmersion_minutesIn m c h) t

theorem foldl_registerImmersion_actionsIn (l : List CycleRec) :
    ∀ m : List (String × TagStats), (∀ t, actionsIn m t = []) →
      ∀ t, actionsIn (l.foldl registerImmersion m) t = [] := by
  induction l with
  | nil => intro m h t; exact h t
  | cons c rest ih =>
    intro m h t
    exact ih (registerImmersion m c) (registerImmersion_actionsIn m c h) t

theorem diveStep_minutesIn (cycles : List CycleRec) (m : List (String × TagStats))
    (i : Nat) (t : String) :
    minutesIn (diveStep cycles m i) t = minutesIn m t + diveMinutesContrib cycles t i := by
  unfold diveStep diveMinutesContrib
  cases hc : cycles.get? i with
  | none => simp
  | some c =>
    by_cases hd : isCountedDive c = true
    · by_cases ht : t = assocTag cycles i
      · simp [hd, ht, addDive_minutesIn]
      · simp [hd, ht, addDive_minutesIn]
    · simp [hd]

theorem diveStep_actionsIn (cycles : List CycleRec) (m : List (String × TagStats))
    (i : Nat) (t : String) :
    actionsIn (diveStep cycles m i) t = actionsIn m t ++ diveActionsContrib cycles t i := by
  unfold diveStep diveActionsContrib
  cases hc : cycles.get? i with
  | none => simp
  | some c =>
    by_cases hd : isCountedDive c = true
    · by_cases ht : t = assocTag cycles i
      · simp [hd, ht, addDive_actionsIn]
      · simp [hd, ht, addDive_actionsIn]
    · simp [hd]

theorem foldl_diveStep_minutesIn (cycles : List CycleRec) (is : List Nat) :
    ∀ (m : List (String × TagStats)) (t : String),
      minutesIn (is.foldl (diveStep cycles) m) t =
        minutesIn m t + ((is.map (diveMinutesContrib cycles t)).sum) := by
  induction is with
  | nil => intro m t; simp
  | cons i rest ih =>
    intro m t
    rw [List.foldl_cons, ih, diveStep_minutesIn, List.map_cons, List.sum_cons]
    omega

theorem foldl_diveStep_actionsIn (cycles : List CycleRec) (is : List Nat) :
    ∀ (m : List (String × TagStats)) (t : String),
      actionsIn (is.foldl (diveStep cycles) m) t =
        actionsIn m t ++ ((is.map (diveActionsContrib cycles t)).flatten) := by
  induction is with
  | nil => intro m t; simp
  | cons i rest ih =>
    intro m t
    rw [List.foldl_cons, ih, diveStep_actionsIn, List.map_cons, List.flatten_cons,
      List.append_assoc]

theorem wfTagMap_mapSet {m : List (String × TagStats)} {k : String} {v : TagStats}
    (h : WfTagMap m) (hv : v.tag = k) : WfTagMap (mapSet m k v) := by
  refine ⟨nodup_keys_mapSet k v h.1, ?_⟩
  intro p hp
  rcases mem_mapSet hp with h1 | h1
  · rw [h1]; exact hv
  · exact h.2 p h1

theorem wfTagMap_registerImmersion (m : List (String × TagStats)) (c : CycleRec)
    (h : WfTagMap m) : WfTagMap (registerImmersion m c) := by
  unfold registerImmersion
  cases hm : mapGet m (orDefault c.tag "Sem tag") with
  | none =>
    simp only [hm]
    exact wfTagMap_mapSet h rfl
  | some ts =>
    simp only [hm]
    exact wfTagMap_mapSet h (h.2 (orDefault c.tag "Sem tag", ts) (mem_of_mapGet hm))

theorem wfTagMap_bumpMinutes (m : List (String × TagStats)) (tag : String) (d : Int)
    (h : WfTagMap m) : WfTagMap (bumpMinutes m tag d) := by
  unfold bumpMinutes
  cases hm : mapGet m tag with
  | none => exact wfTagMap_mapSet h rfl
  | some ts => exact wfTagMap_mapSet h (h.2 (tag, ts) (mem_of_mapGet hm))

theorem wfTagMap_pushAction (m : List (String × TagStats)) (tag : String)
    (a? : Option String) (h : WfTagMap m) : WfTagMap (pushAction m tag a?) := by
  unfold pushAction
  cases a? with
  | none => cases hm : mapGet m tag <;> exact h
  | some a =>
    cases hm : mapGet m tag with
    | none => exact h
    | some ts => exact wfTagMap_mapSet h (h.2 (tag, ts) (mem_of_mapGet hm))

theorem wfTagMap_diveStep (cycles : List CycleRec) (m : List (String × TagStats))
    (i : Nat) (h : WfTagMap m) : WfTagMap (diveStep cycles m i) := by
  unfold diveStep
  cases hc : cycles.get? i with
  | none => exact h
  | some c =>
    by_cases hd : isCountedDive c = true
    · simp only [hd, if_true]
      exact wfTagMap_pushAction _ _ _ (wfTagMap_bumpMinutes _ _ _ h)
    · simp only [hd, if_false]
      exact h

theorem wfTagMap_tagMapAfter (cycles : List CycleRec) : WfTagMap (tagMapAfter cycles) := by
  unfold tagMapAfter
  have h1 : ∀ (l : List CycleRec) (m : List (String × TagStats)), WfTagMap m →
      WfTagMap (l.foldl registerImmersion m) := by
    intro l
    induction l with
    | nil => intro m h; exact h
    | cons c rest ih => intro m h; exact ih _ (wfTagMap_registerImmersion m c h)
  have h2 : ∀ (is : List Nat) (m : List (String × TagStats)), WfTagMap m →
      WfTagMap (is.foldl (diveStep cycles) m) := by
    intro is
    induction is with
    | nil => intro m h; exact h
    | cons i rest ih => intro m h; exact ih _ (wfTagMap_diveStep cycles m i h)
  exact h2 _ _ (h1 _ [] ⟨List.nodup_nil, by intro p hp; simp at hp⟩)

theorem tagMapAfter_minutesIn (cycles : List CycleRec) (t : String) :
    minutesIn (tagMapAfter cycles) t = attributedMinutes cycles t := by
  unfold tagMapAfter attributedMinutes
  rw [foldl_diveStep_minutesIn]
  have h0 : ∀ t', minutesIn ([] : List (String × TagStats)) t' = 0 := by
    intro t'; rfl
  rw [foldl_registerImmersion_minutesIn _ [] h0 t]
  omega

theorem tagMapAfter_actionsIn (cycles : List CycleRec) (t : String) :
    actionsIn (tagMapAfter cycles) t = attributedActions cycles t := by
  unfold tagMapAfter attributedActions
  rw [foldl_diveStep_actionsIn]
  have h0 : ∀ t', actionsIn ([] : List (String × TagStats)) t' = [] := by
    intro t'; rfl
  rw [foldl_registerImmersion_actionsIn _ [] h0 t]
  rfl

theorem tagMap_entry_spec (cycles : List CycleRec) (e : TagStats)
    (he : e ∈ getTagStats cycles) :
    e.totalTimeMinutes = attributedMinutes cycles e.tag ∧
    e.actions = attributedActions cycles e.tag := by
  have hwf : WfTagMap (tagMapAfter cycles) := wfTagMap_tagMapAfter cycles
  have he2 : e ∈ (tagMapAfter cycles).map Prod.snd := by
    have := (mem_sortByDesc (fun ts => ts.totalTimeMinutes)
      ((tagMapAfter cycles).map Prod.snd) e).mp
    exact this he
  obtain ⟨p, hp, hpe⟩ := List.mem_map.mp he2
  have htag : e.tag = p.1 := by rw [← hpe]; exact hwf.2 p hp
  have hget : mapGet (tagMapAfter cycles) p.1 = some p.2 :=
    mapGet_of_mem_nodup hwf.1 hp
  constructor
  · rw [htag, ← tagMapAfter_minutesIn, minutesIn, projGet, hget, ← hpe]
    rfl
  · rw [htag, ← tagMapAfter_actionsIn, actionsIn, projGet, hget, ← hpe]
    rfl

/-- C2: each completed dive record's rounded duration and free-text actions are
attributed to the tag of the nearest preceding tagged immersion record, with the
`'Sem tag'` sentinel when none exists; on the example log Immersion(A), Dive(10 min),
Immersion(B), Dive(5 min) tag A receives 10 minutes (and the dive's action note) and
tag B receives 5, independent of the immersion records' own durations; the result is
sorted descending by attributed minutes. -/
theorem tagStats_spec :
    getTagStats exTagLog =
      [{ tag := "A", cycleCount := 1, totalTimeMinutes := 10, actions := ["wrote report"] },
       { tag := "B", cycleCount := 1, totalTimeMinutes := 5, actions := [] }] ∧
    (∀ cycles : List CycleRec,
      (getTagStats cycles).Pairwise (fun a b => b.totalTimeMinutes ≤ a.totalTimeMinutes)) ∧
    (∀ (cycles : List CycleRec) (e : TagStats), e ∈ getTagStats cycles →
      e.totalTimeMinutes = attributedMinutes cycles e.tag ∧
      e.actions = attributedActions cycles e.tag) := by
  refine ⟨by decide, ?_, ?_⟩
  · intro cycles
    exact pairwise_sortByDesc (fun ts => ts.totalTimeMinutes) ((tagMapAfter cycles).map Prod.snd)
  · intro cycles e he
    exact tagMap_entry_spec cycles e he

/-- Witness for C2 at the example log and its top entry. -/
theorem tagStats_spec_witness :
    ({ tag := "A", cycleCount := 1, totalTimeMinutes := 10,
       actions := ["wrote report"] } : TagStats) ∈ getTagStats exTagLog ∧
    attributedMinutes exTagLog "A" = 10 ∧
    attributedActions exTagLog "A" = ["wrote report"] := by
  have h := tagStats_spec.2.2 exTagLog
    { tag := "A", cycleCount := 1, totalTimeMinutes := 10, actions := ["wrote report"] }
    (by decide)
  exact ⟨by decide, by rw [← h.1], by rw [← h.2]⟩

theorem valsSum_mapSet_bump (m : List (String × Nat)) (t : String) :
    valsSum (mapSet m t ((mapGet m t).getD 0 + 1)) = valsSum m + 1 := by
  induction m with
  | nil => simp [valsSum, mapSet, mapGet]
  | cons p rest ih =>
    by_cases h1 : p.1 = t
    · simp [valsSum, mapSet, mapGet, h1]
      omega
    · simp [valsSum, mapSet, mapGet, h1] at ih ⊢
      omega

theorem foldl_countToken_spec (ts : List String) :
    ∀ mt : List (String × Nat) × Nat,
      valsSum (ts.foldl countToken mt).1 = valsSum mt.1 + ts.length ∧
      (ts.foldl countToken mt).2 = mt.2 + ts.length := by
  induction ts with
  | nil => intro mt; simp
  | cons a rest ih =>
    intro mt
    rw [List.foldl_cons]
    have h := ih (countToken mt a)
    have h1 : valsSum (countToken mt a).1 = valsSum mt.1 + 1 := valsSum_mapSet_bump mt.1 a
    have h2 : (countToken mt a).2 = mt.2 + 1 := rfl
    constructor
    · rw [h.1, h1, List.length_cons]; omega
    · rw [h.2, h2, List.length_cons]; omega

theorem foldl_breath_spec (l : List CycleRec) :
    ∀ mt : List (String × Nat) × Nat,
      valsSum (l.foldl (fun mt c => (tokensOf c).foldl countToken mt) mt).1 =
        valsSum mt.1 + ((l.map tokensOf).flatten).length ∧
      (l.foldl (fun mt c => (tokensOf c).foldl countToken mt) mt).2 =
        mt.2 + ((l.map tokensOf).flatten).length := by
  induction l with
  | nil => intro mt; simp
  | cons c rest ih =>
    intro mt
    rw [List.foldl_cons]
    have h := ih ((tokensOf c).foldl countToken mt)
    have h1 := foldl_countToken_spec (tokensOf c) mt
    constructor
    · rw [h.1, h1.1]
      simp [List.flatten_cons, List.length_append]
      omega
    · rw [h.2, h1.2]
      simp [List.flatten_cons, List.length_append]
      omega

theorem breathTagCounts_spec (cycles : List CycleRec) :
    valsSum (breathTagCounts cycles).1 = (breathTagCounts cycles).2 ∧
    (breathTagCounts cycles).2 = totalTokenOccurrences cycles := by
  have h := foldl_breath_spec (cycles.filter breathFilter) ([], 0)
  unfold breathTagCounts totalTokenOccurrences
  constructor
  · rw [h.1, h.2]
    rfl
  · rw [h.2]
    simp

theorem sum_percentages (m : List (String × Nat)) (T : ℚ) :
    (m.map (fun kv => ((kv.2 : ℚ) / T) * 100)).sum = ((valsSum m : ℚ) / T) * 100 := by
  induction m with
  | nil => simp [valsSum]
  | cons p rest ih =>
    rw [List.map_cons, List.sum_cons, ih]
    have hv : (valsSum (p :: rest) : ℚ) = (p.2 : ℚ) + (valsSum rest : ℚ) := by
      simp [valsSum]
    rw [hv]
    ring

/-- C10: in breath tag statistics, each returned token's percentage is 100 times its
count divided by the total number of token occurrences across all completed tagged
breath records in range (a record with n comma-separated tags contributing n
occurrences), and whenever at least one token occurrence exists the percentages of the
returned entries sum to exactly 100. -/
theorem breathTagStats_spec (cycles : List CycleRec) :
    (∀ e ∈ getBreathTagStats cycles,
      e.percentage = 100 * (e.count : ℚ) / (totalTokenOccurrences cycles : ℚ)) ∧
    (0 < totalTokenOccurrences cycles →
      ((getBreathTagStats cycles).map BreathTagStats.percentage).sum = 100) := by
  have hspec := breathTagCounts_spec cycles
  constructor
  · intro e he
    have he2 : e ∈ (breathTagCounts cycles).1.map (fun kv =>
        ({ tag := kv.1, count := kv.2,
           percentage := if (breathTagCounts cycles).2 > 0 then
             ((kv.2 : ℚ) / ((breathTagCounts cycles).2 : ℚ)) * 100 else 0 } :
          BreathTagStats)) := by
      have hmem := (mem_sortByDesc (fun s => ((s.count : Int)))
        ((breathTagCounts cycles).1.map (fun kv =>
          ({ tag := kv.1, count := kv.2,
             percentage := if (breathTagCounts cycles).2 > 0 then
               ((kv.2 : ℚ) / ((breathTagCounts cycles).2 : ℚ)) * 100 else 0 } :
            BreathTagStats))) e).mp
      exact hmem he
    obtain ⟨kv, hkv, hfe⟩ := List.mem_map.mp he2
    rw [← hfe]
    by_cases hT : (breathTagCounts cycles).2 > 0
    · simp only [if_pos hT]
      rw [← hspec.2]
      have hne : (((breathTagCounts cycles).2 : ℚ)) ≠ 0 := by
        exact_mod_cast Nat.pos_iff_ne_zero.mp hT
      field_simp
      ring
    · simp only [if_neg hT]
      have hz : (breathTagCounts cycles).2 = 0 := Nat.eq_zero_of_not_pos hT
      rw [← hspec.2, hz]
      simp
  · intro hT
    have hT2 : 0 < (breathTagCounts cycles).2 := by rw [hspec.2]; exact hT
    have hperm :
        ((getBreathTagStats cycles).map BreathTagStats.percentage).sum =
        (((breathTagCounts cycles).1.map (fun kv =>
          ({ tag := kv.1, count := kv.2,
             percentage := if (breathTagCounts cycles).2 > 0 then
               ((kv.2 : ℚ) / ((breathTagCounts cycles).2 : ℚ)) * 100 else 0 } :
            BreathTagStats))).map BreathTagStats.percentage).sum := by
      exact ((perm_sortByDesc (fun s => (s.count : Int)) _).map
        BreathTagStats.percentage).sum_eq
    rw [hperm, List.map_map]
    have hmap : ((breathTagCounts cycles).1.map (BreathTagStats.percentage ∘ fun kv =>
        ({ tag := kv.1, count := kv.2,
           percentage := if (breathTagCounts cycles).2 > 0 then
             ((kv.2 : ℚ) / ((breathTagCounts cycles).2 : ℚ)) * 100 else 0 } :
          BreathTagStats))) =
        ((breathTagCounts cycles).1.map (fun kv =>
          ((kv.2 : ℚ) / ((breathTagCounts cycles).2 : ℚ)) * 100)) := by
      apply List.map_congr_left
      intro kv _
      simp [hT2]
    rw [hmap, sum_percentages, hspec.1]
    have hne : (((breathTagCounts cycles).2 : ℚ)) ≠ 0 := by
      exact_mod_cast Nat.pos_iff_ne_zero.mp hT2
    field_simp

/-- Witness for C10 at the two-record example log (tags `"calm, tired"` and `"calm"`,
three token occurrences): the percentages sum to exactly 100. -/
theorem breathTagStats_spec_witness :
    0 < totalTokenOccurrences exBreathLog ∧
    ((getBreathTagStats exBreathLog).map BreathTagStats.percentage).sum = 100 :=
  ⟨by decide, (breathTagStats_spec exBreathLog).2 (by decide)⟩

theorem musicStep_eq_mapSet (m : List (String × MusicAgg)) (c : CycleRec) :
    ∃ v, musicStep m c = mapSet m (artistKey c) v := by
  unfold musicStep
  cases hm : mapGet m (artistKey c) <;>
    cases htn : orNone c.spotifyTrackName <;>
      simp only [hm, htn] <;> exact ⟨_, rfl⟩

theorem nodup_keys_foldl_musicStep (rows : List CycleRec) :
    ∀ m : List (String × MusicAgg), (m.map Prod.fst).Nodup →
      ((rows.foldl musicStep m).map Prod.fst).Nodup := by
  induction rows with
  | nil => intro m h; exact h
  | cons c rest ih =>
    intro m h
    rw [List.foldl_cons]
    obtain ⟨v, hv⟩ := musicStep_eq_mapSet m c
    refine ih _ ?_
    rw [hv]
    exact nodup_keys_mapSet _ _ h

theorem isSome_foldl_musicStep (rows : List CycleRec) :
    ∀ (m : List (String × MusicAgg)) (t : String), (mapGet m t).isSome = true →
      (mapGet (rows.foldl musicStep m) t).isSome = true := by
  induction rows with
  | nil => intro m t h; exact h
  | cons c rest ih =>
    intro m t h
    rw [List.foldl_cons]
    obtain ⟨v, hv⟩ := musicStep_eq_mapSet m c
    refine ih _ t ?_
    rw [hv]
    exact isSome_mapGet_mapSet m _ t v h

theorem key_isSome_after_foldl (rows : List CycleRec) :
    ∀ (m : List (String × MusicAgg)) (c : CycleRec), c ∈ rows →
      (mapGet (rows.foldl musicStep m) (artistKey c)).isSome = true := by
  induction rows with
  | nil => intro m c h; simp at h
  | cons d rest ih =>
    intro m c h
    rw [List.foldl_cons]
    rcases List.mem_cons.mp h with h1 | h1
    · subst h1
      apply isSome_foldl_musicStep
      obtain ⟨v, hv⟩ := musicStep_eq_mapSet m c
      rw [hv, mapGet_mapSet_self]
      rfl
    · exact ih _ c h1

theorem musicStep_projections (m : List (String × MusicAgg)) (c : CycleRec) (t : String) :
    cycleCountIn (musicStep m c) t =
      cycleCountIn m t + (if artistKey c = t then 1 else 0) ∧
    musicMinutesIn (musicStep m c) t =
      musicMinutesIn m t + (if artistKey c = t then durationMinutes c else 0) ∧
    ratingSumIn (musicStep m c) t =
      ratingSumIn m t +
        (if artistKey c = t ∧ ratingTruthy c.rating = true then c.rating.getD 0 else 0) ∧
    ratingCountIn (musicStep m c) t =
      ratingCountIn m t +
        (if artistKey c = t ∧ ratingTruthy c.rating = true then 1 else 0) := by
  unfold musicStep cycleCountIn musicMinutesIn ratingSumIn ratingCountIn
  by_cases hr : ratingTruthy c.rating = true <;>
    cases hm : mapGet m (artistKey c) <;>
      cases htn : orNone c.spotifyTrackName <;>
        simp only [hm, htn, hr] <;>
          refine ⟨?_, ?_, ?_, ?_⟩ <;>
            (rw [projGet_mapSet]
             by_cases ht : artistKey c = t
             · subst ht
               simp [projGet, hm, hr, apply_ite]
             · have ht2 : ¬t = artistKey c := fun hh => ht hh.symm
               simp [projGet, ht, ht2, hr])

theorem foldl_musicStep_projections (rows : List CycleRec) :
    ∀ (m : List (String × MusicAgg)) (t : String),
      cycleCountIn (rows.foldl musicStep m) t =
        cycleCountIn m t + (rows.filter (fun c => decide (artistKey c = t))).length ∧
      musicMinutesIn (rows.foldl musicStep m) t =
        musicMinutesIn m t +
          ((rows.filter (fun c => decide (artistKey c = t))).map durationMinutes).sum ∧
      ratingSumIn (rows.foldl musicStep m) t =
        ratingSumIn m t +
          ((rows.filter (fun c => decide (artistKey c = t) && ratingTruthy c.rating)).map
            (fun c => c.rating.getD 0)).sum ∧
      ratingCountIn (rows.foldl musicStep m) t =
        ratingCountIn m t +
          (rows.filter (fun c => decide (artistKey c = t) && ratingTruthy c.rating)).length := by
  induction rows with
  | nil => intro m t; simp
  | cons c rest ih =>
    intro m t
    rw [List.foldl_cons]
    have hstep := musicStep_projections m c t
    have hrec := ih (musicStep m c) t
    by_cases h1 : artistKey c = t <;> by_cases h2 : ratingTruthy c.rating = true <;>
      refine ⟨?_, ?_, ?_, ?_⟩ <;>
        simp [h1, h2, List.filter_cons] at hstep hrec ⊢ <;> omega

/-- C9 (amended): music correlation statistics group completed dive records by artist,
records with no captured track falling into the `'Sem música'` bucket; each group's
cycle count and minutes aggregate its dive rows, and its mean rating is computed from
the `rating` fields of the dive rows themselves (which only breath records ever
receive), so it is 0 whenever no dive row carries a truthy rating. -/
theorem musicFocusStats_spec (cycles : List CycleRec) :
    (∀ e ∈ getMusicFocusStats cycles,
      e.cycleCount = artistCycleCount cycles e.artist ∧
      e.totalMinutes = artistMinutes cycles e.artist ∧
      e.averageRating = (if 0 < artistRatingCount cycles e.artist then
        (artistRatingSum cycles e.artist : ℚ) / (artistRatingCount cycles e.artist : ℚ)
        else 0)) ∧
    (∀ c ∈ musicRows cycles, ∃ e ∈ getMusicFocusStats cycles, e.artist = artistKey c) := by
  have hnodup : (((musicRows cycles).foldl musicStep []).map Prod.fst).Nodup :=
    nodup_keys_foldl_musicStep (musicRows cycles) [] List.nodup_nil
  have hfold := foldl_musicStep_projections (musicRows cycles)
  constructor
  · intro e he
    have he2 : e ∈ ((musicRows cycles).foldl musicStep []).map mkMusicRow := by
      have hmem := (mem_sortByDesc (fun s => s.totalMinutes)
        (((musicRows cycles).foldl musicStep []).map mkMusicRow) e).mp
      exact hmem he
    obtain ⟨kv, hkv, hfe⟩ := List.mem_map.mp he2
    have hget : mapGet ((musicRows cycles).foldl musicStep []) kv.1 = some kv.2 :=
      mapGet_of_mem_nodup hnodup hkv
    have hspec := hfold [] kv.1
    have hcc : kv.2.cycleCount = artistCycleCount cycles kv.1 := by
      have := hspec.1
      simpa [cycleCountIn, projGet, hget, artistCycleCount, mapGet] using this
    have hmin : kv.2.totalMinutes = artistMinutes cycles kv.1 := by
      have := hspec.2.1
      simpa [musicMinutesIn, projGet, hget, artistMinutes, mapGet] using this
    have hrs : kv.2.ratingSum = artistRatingSum cycles kv.1 := by
      have := hspec.2.2.1
      simpa [ratingSumIn, projGet, hget, artistRatingSum, mapGet] using this
    have hrc : kv.2.ratingCount = artistRatingCount cycles kv.1 := by
      have := hspec.2.2.2
      simpa [ratingCountIn, projGet, hget, artistRatingCount, mapGet] using this
    rw [← hfe]
    refine ⟨?_, ?_, ?_⟩
    · simpa [mkMusicRow] using hcc
    · simpa [mkMusicRow] using hmin
    · show (if kv.2.ratingCount > 0 then
        (kv.2.ratingSum : ℚ) / (kv.2.ratingCount : ℚ) else 0) = _
      rw [hrs, hrc]
      simp [mkMusicRow]
  · intro c hc
    have hsome := key_isSome_after_foldl (musicRows cycles) [] c hc
    obtain ⟨v, hv⟩ := Option.isSome_iff_exists.mp hsome
    have hmem2 : (artistKey c, v) ∈ (musicRows cycles).foldl musicStep [] :=
      mem_of_mapGet hv
    refine ⟨mkMusicRow (artistKey c, v), ?_, rfl⟩
    have hmem3 : mkMusicRow (artistKey c, v) ∈
        ((musicRows cycles).foldl musicStep []).map mkMusicRow :=
      List.mem_map.mpr ⟨(artistKey c, v), hmem2, rfl⟩
    have hmm := (mem_sortByDesc (fun s => s.totalMinutes)
      (((musicRows cycles).foldl musicStep []).map mkMusicRow)
      (mkMusicRow (artistKey c, v))).mpr
    exact hmm hmem3

/-- Witness for C9's amended statement: the example dive by artist X, with a rated
breath record in the same cycle, yields one bucket with zero mean rating. -/
theorem musicFocusStats_spec_witness :
    (({ artist := "X", trackName := none, cycleCount := 1, averageRating := 0,
        totalMinutes := 25 } : MusicFocusStats) ∈ getMusicFocusStats exMusicLog ∧
      (1 : Nat) = artistCycleCount exMusicLog "X" ∧
      (25 : Int) = artistMinutes exMusicLog "X") ∧
    ∃ e ∈ getMusicFocusStats exMusicLog, e.artist = artistKey exDiveRec := by
  have h1 := (musicFocusStats_spec exMusicLog).1
    { artist := "X", trackName := none, cycleCount := 1, averageRating := 0,
      totalMinutes := 25 } (by decide)
  have h2 := (musicFocusStats_spec exMusicLog).2 exDiveRec (by decide)
  exact ⟨⟨by decide, h1.1, h1.2.1⟩, h2⟩

/-- Counterexample for C9 as stated: in a cycle whose completed dive (artist X) has no
rating of its own while the same cycle's breath record carries rating 5, the returned
mean rating for X is 0, not the breath record's 5. -/
theorem musicFocusStats_cex :
    getMusicFocusStats exMusicLog =
      [{ artist := "X", trackName := none, cycleCount := 1, averageRating := 0,
         totalMinutes := 25 }] ∧
    (exMusicLog.filter (fun c => decide (c.phase = Phase.breath) && c.completed)).map
      CycleRec.rating = [some 5] ∧
    (0 : ℚ) ≠ 5 := by
  refine ⟨by decide, by decide, by norm_num⟩

end OceanFlow
